import Mathlib

/-!
# Verification of the GromacsTools RMSD pipeline

Shallow embedding of the repository's two algorithmic files:

* `compute_rmsd.py` — region parsing (`parse_ranges`), atom grouping
  (`atom_groups`), correspondence by `(residue_number, atom_name)` keys,
  rigid superposition (Bio.PDB `Superimposer` over numpy's
  `SVDSuperimposer`), and the per-group CSV report produced by `main`.
* `gmx2pdb_strip.py` — the `ProteinSelect.accept_atom` filtering predicate.

Modelling conventions: Python floats become exact rationals `ℚ`; the SVD
rotation extraction (numpy `svd` plus the reflection fix) is an opaque-to-us
numeric routine and is threaded through the pipeline as an explicit function
parameter `svdRot : Mat3 → Mat3` — every theorem about the pipeline holds for
an arbitrary such routine.  Python dictionaries keyed by
`(residue_number, atom_name)` become association-style lookups with
last-write-wins semantics; Python set iteration order is unspecified, so key
sets become deduplicated lists in an arbitrary but consistent order.
-/

/-! ## Data model (Bio.PDB chain/residue/atom as seen by the scripts) -/

/-- A 3D coordinate with exact rational components (abstraction of the
numpy float vector carried by a Bio.PDB `Atom`). -/
structure Vec3 where
  x : ℚ
  y : ℚ
  z : ℚ
deriving DecidableEq

/-- An atom: a name and a (mutable, in Python) coordinate. -/
structure Atom where
  name : String
  coord : Vec3
deriving DecidableEq

/-- A residue: the Bio.PDB id triple's hetero-field (`res.get_id()[0]`) and
sequence number (`res.get_id()[1]`), the residue name, and the atoms it
owns.  Insertion codes never reach the modelled code paths and are omitted. -/
structure Residue where
  hetfield : String
  seq : ℤ
  resname : String
  atoms : List Atom
deriving DecidableEq

/-- A chain: an ordered sequence of residues (`for res in chain`). -/
structure Chain where
  residues : List Residue
deriving DecidableEq

/-! ## Python string primitives

The scripts use `str.split`, `int(str)`, `str.upper` and `str.startswith`.
These are modelled over the character list of the string by structural
recursion (Python semantics restricted to ASCII inputs), so that every
definition evaluates inside the kernel. -/

/-- Python `s.split(sep)` for a single-character separator: splits at every
occurrence and keeps empty pieces, so `"".split(',') = ['']` and
`"a,,b".split(',') = ['a', '', 'b']`.  `acc` holds the current piece
reversed. -/
def splitCharAux (sep : Char) : List Char → List Char → List (List Char)
  | [], acc => [acc.reverse]
  | c :: rest, acc =>
    if c = sep then acc.reverse :: splitCharAux sep rest []
    else splitCharAux sep rest (c :: acc)

/-- Python `s.split(sep)` (single-character separator) on the characters of
`s`. -/
def splitChar (sep : Char) (s : List Char) : List (List Char) :=
  splitCharAux sep s []

/-- Python `s.startswith(p)`: `p` is a prefix of `s`. -/
def strStartsWith (s p : List Char) : Bool :=
  match s, p with
  | _, [] => true
  | [], _ :: _ => false
  | c :: s', d :: p' => c = d && strStartsWith s' p'

/-- Python `s.upper()` on ASCII strings. -/
def upperStr (s : String) : String :=
  String.mk (s.data.map Char.toUpper)

/-! ## Region Selector (`parse_ranges` and the line-56 membership test) -/

/-- Characters stripped by Python's `int(str)` conversion (ASCII whitespace;
the model restricts Python's unicode handling to ASCII inputs). -/
def isPySpace (c : Char) : Bool :=
  c = ' ' || c = '\t' || c = '\n' || c = '\r' || c = '\x0b' || c = '\x0c'

/-- Digit-string value accumulator for the `int()` model: consumes decimal
digits, allowing a single underscore between two digits (Python 3.6+
literals); anything else rejects. -/
def digitsCore (acc : ℕ) : List Char → Option ℕ
  | [] => some acc
  | '_' :: rest =>
    match rest with
    | c :: rest2 =>
      if c.isDigit then digitsCore (acc * 10 + (c.toNat - 48)) rest2 else none
    | [] => none
  | c :: rest =>
    if c.isDigit then digitsCore (acc * 10 + (c.toNat - 48)) rest else none

/-- Nonempty digit string (first char must be a digit). -/
def digitsVal : List Char → Option ℕ
  | [] => none
  | c :: rest => if c.isDigit then digitsCore (c.toNat - 48) rest else none

/-- Model of Python `int(s)` on ASCII character lists: strip surrounding
whitespace, an optional single sign, then a nonempty digit string (single
underscores permitted between digits).  Returns `none` where `int()` raises
`ValueError`. -/
def pyInt (s : List Char) : Option ℤ :=
  match ((s.dropWhile isPySpace).reverse.dropWhile isPySpace).reverse with
  | [] => none
  | c :: rest =>
    if c = '+' then (digitsVal rest).map (fun n => (n : ℤ))
    else if c = '-' then (digitsVal rest).map (fun n => -(n : ℤ))
    else (digitsVal (c :: rest)).map (fun n => (n : ℤ))

/-- One iteration of the `parse_ranges` loop body: `start,end =
part.split('-')` (raises unless exactly two pieces) then `int(start)`,
`int(end)` (raise on malformed integers). -/
def parsePart (part : List Char) : Except String (ℤ × ℤ) :=
  match splitChar '-' part with
  | [s, e] =>
    match pyInt s, pyInt e with
    | some a, some b => .ok (a, b)
    | _, _ => .error "invalid literal for int() with base 10"
  | _ => .error "not enough values to unpack"

/-- The `parse_ranges` loop over the comma-separated parts, accumulating
`(start, end)` pairs in order and propagating the first failure. -/
def parseParts : List (List Char) → Except String (List (ℤ × ℤ))
  | [] => .ok []
  | p :: rest =>
    match parsePart p with
    | .error e => .error e
    | .ok pr =>
      match parseParts rest with
      | .error e => .error e
      | .ok l => .ok (pr :: l)

/-- `parse_ranges(rangestr)` (compute_rmsd.py lines 28-34): convert
`"45-55,120-130"` to `[(45,55),(120,130)]`, failing on malformed tokens. -/
def parse_ranges (rangestr : String) : Except String (List (ℤ × ℤ)) :=
  parseParts (splitChar ',' rangestr.data)

/-- The region-membership test of compute_rmsd.py line 56:
`any(start <= resnum <= end for start,end in regs)`. -/
def inRegions (regs : List (ℤ × ℤ)) (n : ℤ) : Bool :=
  regs.any (fun r => decide (r.1 ≤ n ∧ n ≤ r.2))

/-! ## Atom Classifier (`atom_groups`, compute_rmsd.py lines 36-58) -/

/-- The 20 standard amino-acid three-letter codes recognised by
Bio.PDB's `is_aa(res, standard=True)` (Bio.PDB.Polypeptide). -/
def standard_aa_names : List String :=
  ["ALA", "ARG", "ASN", "ASP", "CYS", "GLN", "GLU", "GLY", "HIS", "ILE",
   "LEU", "LYS", "MET", "PHE", "PRO", "SER", "THR", "TRP", "TYR", "VAL"]

/-- Model of Bio.PDB `is_aa(residue, standard=True)`: uppercase the residue
name and test membership in the standard twenty. -/
def is_aa_std (resname : String) : Bool :=
  decide (upperStr resname ∈ standard_aa_names)

/-- An atom as it sits in a group list: the Python lists hold `Atom` objects
whose parent residue is recovered by `atom.get_parent()`; the embedding
carries the parent's sequence number alongside name and coordinate. -/
structure PAtom where
  resseq : ℤ
  name : String
  coord : Vec3
deriving DecidableEq

/-- Pairing an atom with its owning residue's sequence number, as
`(atom.get_parent().get_id()[1], atom.get_name())` does. -/
def mkPAtom (res : Residue) (a : Atom) : PAtom :=
  { resseq := res.seq, name := a.name, coord := a.coord }

/-- All atoms of the chain's standard residues, in chain order: renders the
nested `for res in chain: if not is_aa(...): continue; for atom in res`
append loop of `atom_groups`. -/
def chainPAtoms (chain : Chain) : List PAtom :=
  (chain.residues.filter (fun r => is_aa_std r.resname)).flatMap
    (fun r => r.atoms.map (mkPAtom r))

/-- The five group lists built by `atom_groups`. -/
structure AtomGroups where
  all : List PAtom
  backbone : List PAtom
  loop : List PAtom
  ec : List PAtom
  ic : List PAtom
deriving DecidableEq

/-- `atom_groups(chain, loop_regs, ec_regs, ic_regs)` (lines 36-58): every
atom of a standard residue goes to `all`; to `backbone` iff its name is one
of `N`, `CA`, `C`; and to `loop`/`ec`/`ic` iff the residue number falls in
the corresponding region list.  The filter formulation preserves the append
order of the source's nested loop exactly. -/
def atom_groups (chain : Chain) (loop_regs ec_regs ic_regs : List (ℤ × ℤ)) :
    AtomGroups :=
  { all := chainPAtoms chain
    backbone := (chainPAtoms chain).filter
      (fun pa => decide (pa.name ∈ ["N", "CA", "C"]))
    loop := (chainPAtoms chain).filter (fun pa => inRegions loop_regs pa.resseq)
    ec := (chainPAtoms chain).filter (fun pa => inRegions ec_regs pa.resseq)
    ic := (chainPAtoms chain).filter (fun pa => inRegions ic_regs pa.resseq) }

/-- Group lookup by name, mirroring `ref_atoms[grp]` for the five dict keys
inserted at line 45 (in insertion order `all, backbone, loop, ec, ic`). -/
def AtomGroups.get (g : AtomGroups) : String → List PAtom
  | "all" => g.all
  | "backbone" => g.backbone
  | "loop" => g.loop
  | "ec" => g.ec
  | "ic" => g.ic
  | _ => []

/-- The group iteration order of `for grp in ref_atoms` (dict insertion
order from line 45). -/
def groupNames : List String := ["all", "backbone", "loop", "ec", "ic"]

/-! ## `ProteinSelect.accept_atom` (gmx2pdb_strip.py lines 33-50) -/

namespace ProteinSelect

/-- The `standard_aa` class attribute of `ProteinSelect` (a Python set;
only membership is ever used). -/
def standard_aa : List String :=
  ["ALA", "ARG", "ASN", "ASP", "CYS", "GLN", "GLU", "GLY", "HIS", "ILE",
   "LEU", "LYS", "MET", "PHE", "PRO", "SER", "THR", "TRP", "TYR", "VAL"]

/-- `accept_atom(self, atom)`: the residue is `atom.get_parent()`; ordinary
residues (`res_id[0] == " "`) are kept when standard, restricted to six
backbone/side-chain atoms when named `CYSP`, rejected otherwise; heteroatom
residues (`res_id[0].startswith("H_")`) are kept only for the `ZN` atom of a
`ZN` residue; anything else (waters `"W"` included) is rejected. -/
def accept_atom (res : Residue) (atom : Atom) : Bool :=
  if res.hetfield = " " then
    if decide (res.resname ∈ standard_aa) then true
    else if res.resname = "CYSP" then
      decide (atom.name ∈ ["N", "CA", "C", "O", "CB", "SG"])
    else false
  else if strStartsWith res.hetfield.data ['H', '_'] then
    decide (res.resname = "ZN") && decide (atom.name = "ZN")
  else false

end ProteinSelect

/-! ## Superposition Engine (Bio.PDB `Superimposer` over `SVDSuperimposer`) -/

/-- Componentwise vector addition. -/
def Vec3.add (u v : Vec3) : Vec3 :=
  { x := u.x + v.x, y := u.y + v.y, z := u.z + v.z }

/-- Componentwise vector subtraction. -/
def Vec3.sub (u v : Vec3) : Vec3 :=
  { x := u.x - v.x, y := u.y - v.y, z := u.z - v.z }

/-- Scalar multiple of a vector. -/
def Vec3.scale (q : ℚ) (v : Vec3) : Vec3 :=
  { x := q * v.x, y := q * v.y, z := q * v.z }

/-- Squared euclidean norm (`sum(diff * diff)` over one row). -/
def normSq (v : Vec3) : ℚ :=
  v.x * v.x + v.y * v.y + v.z * v.z

/-- A real 3x3 matrix, row major. -/
structure Mat3 where
  a11 : ℚ
  a12 : ℚ
  a13 : ℚ
  a21 : ℚ
  a22 : ℚ
  a23 : ℚ
  a31 : ℚ
  a32 : ℚ
  a33 : ℚ
deriving DecidableEq

/-- Row-vector times matrix, `numpy.dot(v, m)` for a length-3 `v`. -/
def mulVecMat (v : Vec3) (m : Mat3) : Vec3 :=
  { x := v.x * m.a11 + v.y * m.a21 + v.z * m.a31
    y := v.x * m.a12 + v.y * m.a22 + v.z * m.a32
    z := v.x * m.a13 + v.y * m.a23 + v.z * m.a33 }

/-- `numpy.dot(v, rot) + tran`: the transform applied by both
`SVDSuperimposer.get_transformed` and `Atom.transform`. -/
def applyRotTran (rot : Mat3) (tran : Vec3) (v : Vec3) : Vec3 :=
  Vec3.add (mulVecMat v rot) tran

/-- The identity matrix (used only to instantiate the abstract SVD step in
witnesses). -/
def idMat3 : Mat3 :=
  { a11 := 1, a12 := 0, a13 := 0
    a21 := 0, a22 := 1, a23 := 0
    a31 := 0, a32 := 0, a33 := 1 }

/-- Cross-covariance matrix `a = dot(transpose(coords), reference_coords)`
of `SVDSuperimposer.run`, for centered coordinate rows. -/
def covMat (mov fix : List Vec3) : Mat3 :=
  { a11 := ((mov.zip fix).map (fun p => p.1.x * p.2.x)).sum
    a12 := ((mov.zip fix).map (fun p => p.1.x * p.2.y)).sum
    a13 := ((mov.zip fix).map (fun p => p.1.x * p.2.z)).sum
    a21 := ((mov.zip fix).map (fun p => p.1.y * p.2.x)).sum
    a22 := ((mov.zip fix).map (fun p => p.1.y * p.2.y)).sum
    a23 := ((mov.zip fix).map (fun p => p.1.y * p.2.z)).sum
    a31 := ((mov.zip fix).map (fun p => p.1.z * p.2.x)).sum
    a32 := ((mov.zip fix).map (fun p => p.1.z * p.2.y)).sum
    a33 := ((mov.zip fix).map (fun p => p.1.z * p.2.z)).sum }

/-- Result of `SVDSuperimposer.run` plus `get_rms`: the rotation, the
translation, and the mean squared deviation (`rms` is its square root;
keeping the radicand keeps the embedding exact over `ℚ`). -/
structure FitResult where
  rot : Mat3
  tran : Vec3
  msd : ℚ
deriving DecidableEq

/-- `Superimposer.set_atoms` / `SVDSuperimposer.run` / `get_rms`
(the numeric heart of compute_rmsd.py lines 126-130): center both
coordinate lists on their means, build the cross-covariance matrix, obtain
the rotation from the SVD step (`svdRot`, an explicit parameter abstracting
`numpy.linalg.svd` together with the reflection fix), set the translation
to `av2 - dot(av1, rot)`, and return the mean squared deviation between the
transformed moving coordinates and the fixed ones.  `fixed` is the
reference atom list, `moving` the converted one; both always have equal
length at the call site (`set_atoms` raises otherwise). -/
def runFit (svdRot : Mat3 → Mat3) (fixed moving : List Vec3) : FitResult :=
  let n : ℚ := (fixed.length : ℚ)
  let av1 := Vec3.scale (1 / n) (moving.foldl Vec3.add ⟨0, 0, 0⟩)
  let av2 := Vec3.scale (1 / n) (fixed.foldl Vec3.add ⟨0, 0, 0⟩)
  let movC := moving.map (fun v => Vec3.sub v av1)
  let fixC := fixed.map (fun v => Vec3.sub v av2)
  let rot := svdRot (covMat movC fixC)
  let tran := Vec3.sub av2 (mulVecMat av1 rot)
  let transformed := moving.map (applyRotTran rot tran)
  { rot := rot
    tran := tran
    msd := ((transformed.zip fixed).map (fun p => normSq (Vec3.sub p.1 p.2))).sum
      / ((moving.length : ℚ)) }

/-- `sup.apply(cv_chain.get_atoms())` (line 129): `Atom.transform` mutates
every atom of the chain in place, replacing each coordinate by
`dot(coord, rot) + tran`. -/
def transformChain (rot : Mat3) (tran : Vec3) (c : Chain) : Chain :=
  { residues := c.residues.map (fun r =>
      { r with atoms := r.atoms.map (fun a =>
          { a with coord := applyRotTran rot tran a.coord }) }) }

/-! ## Atom Correspondence Builder (main, lines 108-130) -/

/-- The dictionary key `(atom.get_parent().get_id()[1], atom.get_name())`
of lines 110-113. -/
def mkKey (pa : PAtom) : ℤ × String :=
  (pa.resseq, pa.name)

/-- The key set of the comprehension dict built from an atom list
(`set(ref_map)`): each key once, in a fixed order (Python set iteration
order is unspecified). -/
def dictKeysOf (atoms : List PAtom) : List (ℤ × String) :=
  (atoms.map mkKey).dedup

/-- Dictionary lookup with the comprehension's last-write-wins semantics:
the last atom in iteration order with the given key.  Total with a dummy
default; every call site passes a key present in the dictionary. -/
def dictGetD (atoms : List PAtom) (k : ℤ × String) : PAtom :=
  (atoms.reverse.find? (fun a => decide (mkKey a = k))).getD
    { resseq := 0, name := "", coord := ⟨0, 0, 0⟩ }

/-- `keys = set(ref_map) & set(cv_map)` (line 116): the keys present on
both sides, listed in a fixed order. -/
def interKeys (refAtoms cvAtoms : List PAtom) : List (ℤ × String) :=
  (dictKeysOf refAtoms).filter (fun k => decide (k ∈ cvAtoms.map mkKey))

/-- The two aligned atom lists handed to `sup.set_atoms` (lines 127-128):
`[ref_map[k] for k in keys]` and `[cv_map[k] for k in keys]`, both indexed
by the same iteration over `keys`. -/
def fitInputs (refAtoms cvAtoms : List PAtom) : List PAtom × List PAtom :=
  ((interKeys refAtoms cvAtoms).map (dictGetD refAtoms),
   (interKeys refAtoms cvAtoms).map (dictGetD cvAtoms))

/-! ## Group Report Assembler (main, lines 106-138) -/

/-- One iteration of the `for grp in ref_atoms` loop (lines 108-130) acting
on the converted chain: build both key maps, intersect the key sets, yield
no RMSD on an empty intersection, otherwise fit the matched atoms and
transform the whole chain in place.  The converted-side group list is
re-derived from the current chain: the Python lists alias the chain's atom
objects, and the transform changes only coordinates, never the names or
sequence numbers that decide group membership, so the re-derived list holds
exactly the aliased atoms' current state. -/
def processGroup (svdRot : Mat3 → Mat3) (loop_regs ec_regs ic_regs : List (ℤ × ℤ))
    (grp : String) (refAtoms : List PAtom) (cv : Chain) : Option ℚ × Chain :=
  let cvAtoms := (atom_groups cv loop_regs ec_regs ic_regs).get grp
  match interKeys refAtoms cvAtoms with
  | [] => (none, cv)
  | _ :: _ =>
    let fit := runFit svdRot
      ((fitInputs refAtoms cvAtoms).1.map PAtom.coord)
      ((fitInputs refAtoms cvAtoms).2.map PAtom.coord)
    (some fit.msd, transformChain fit.rot fit.tran cv)

/-- The same iteration threading both structures: the loop body reads the
reference chain and reads *and writes* the converted chain. -/
def processGroupSt (svdRot : Mat3 → Mat3) (loop_regs ec_regs ic_regs : List (ℤ × ℤ))
    (grp : String) (st : Chain × Chain) : Option ℚ × (Chain × Chain) :=
  let refAtoms := (atom_groups st.1 loop_regs ec_regs ic_regs).get grp
  let r := processGroup svdRot loop_regs ec_regs ic_regs grp refAtoms st.2
  (r.1, (st.1, r.2))

/-- The whole `for grp in ref_atoms` loop: the `results` entries in group
order, and the final state of both chains. -/
def processGroups (svdRot : Mat3 → Mat3) (loop_regs ec_regs ic_regs : List (ℤ × ℤ)) :
    List String → Chain × Chain → List (String × Option ℚ) × (Chain × Chain)
  | [], st => ([], st)
  | g :: rest, st =>
    let r := processGroupSt svdRot loop_regs ec_regs ic_regs g st
    let rs := processGroups svdRot loop_regs ec_regs ic_regs rest r.2
    ((g, r.1) :: rs.1, rs.2)

/-- Line 137: `len(set((a.get_parent().get_id()[1], a.get_name()) for a in
ref_atoms[grp]))` — the number of distinct reference-side keys. -/
def nAtomsOf (refAtoms : List PAtom) : ℕ :=
  (refAtoms.map mkKey).dedup.length

/-- Structural integer square root: the largest `k` with `k * k ≤ n`
(linear descent; kernel-computable). -/
def isqrtAux (n : ℕ) : ℕ → ℕ
  | 0 => 0
  | k + 1 => if (k + 1) * (k + 1) ≤ n then k + 1 else isqrtAux n k

/-- Integer square root by bounded descent from `n`. -/
def isqrt (n : ℕ) : ℕ :=
  isqrtAux n n

/-- The nearest integer to `1000 * sqrt(msd)` for a nonnegative rational
`msd` (halves rounded up): the thousandths rendered by `f"{rms:.3f}"`,
with the binary-float round-half-even of Python abstracted to exact
rounding of the real value. -/
def sqrtMilli (msd : ℚ) : ℕ :=
  (isqrt (4000000 * msd.num.toNat * msd.den) + msd.den) / (2 * msd.den)

/-- Decimal digit character. -/
def digitChar (n : ℕ) : Char :=
  Char.ofNat (48 + n)

/-- Digits of a positive number, most significant first, by fuel
recursion. -/
def natDigitsGo : ℕ → ℕ → List Char → List Char
  | 0, _, acc => acc
  | _ + 1, 0, acc => acc
  | fuel + 1, m + 1, acc =>
    natDigitsGo fuel ((m + 1) / 10) (digitChar ((m + 1) % 10) :: acc)

/-- Decimal rendering of a natural number. -/
def natToStr (n : ℕ) : String :=
  if n = 0 then "0" else String.mk (natDigitsGo n n [])

/-- Three zero-padded decimal digits. -/
def pad3 (n : ℕ) : String :=
  String.mk [digitChar (n / 100 % 10), digitChar (n / 10 % 10), digitChar (n % 10)]

/-- `f"{rms:.3f}"` on a value given in thousandths. -/
def fmt3 (milli : ℕ) : String :=
  natToStr (milli / 1000) ++ "." ++ pad3 (milli % 1000)

/-- Line 138's rendering of one `results` entry: the sentinel `NA` for an
absent RMSD, otherwise the square root of the mean squared deviation with
three decimals. -/
def renderRms : Option ℚ → String
  | none => "NA"
  | some msd => fmt3 (sqrtMilli msd)

/-- Lines 133-138: one CSV row per `results` entry, in order; `n_atoms`
is recomputed from the *reference* group lists of line 103. -/
def reportRows (loop_regs ec_regs ic_regs : List (ℤ × ℤ)) (refC : Chain)
    (results : List (String × Option ℚ)) : List (String × ℕ × String) :=
  results.map (fun gr =>
    (gr.1, nAtomsOf ((atom_groups refC loop_regs ec_regs ic_regs).get gr.1),
     renderRms gr.2))

/-- Steps 4-6 of `main` (lines 102-138): group both chains, run the
matching/superposition loop over the five groups, and assemble the report
rows. -/
def computeRmsdMain (svdRot : Mat3 → Mat3) (refC cvC : Chain)
    (loop_regs ec_regs ic_regs : List (ℤ × ℤ)) : List (String × ℕ × String) :=
  reportRows loop_regs ec_regs ic_regs refC
    (processGroups svdRot loop_regs ec_regs ic_regs groupNames (refC, cvC)).1

/-- Coordinate of atom `j` of residue `i` of a chain, when both indices are
in range. -/
def coordAt (c : Chain) (i j : ℕ) : Option Vec3 :=
  (c.residues[i]?.bind (fun r => r.atoms[j]?)).map Atom.coord

/-- Name of atom `j` of residue `i` of a chain, when both indices are in
range. -/
def nameAt (c : Chain) (i j : ℕ) : Option String :=
  (c.residues[i]?.bind (fun r => r.atoms[j]?)).map Atom.name


/-! ## Spec-side formulations

These definitions follow the specification's wording (not the code) and are
compared with the source-translated functions in the theorems below. -/

/-- Spec-side shape test for one region token: exactly two pieces around a
single hyphen, each accepted by `int()`. -/
def tokenGood (t : List Char) : Bool :=
  match splitChar '-' t with
  | [a, b] => (pyInt a).isSome && (pyInt b).isSome
  | _ => false

/-- The `(start, end)` value of a well-formed region token. -/
def tokenVal (t : List Char) : ℤ × ℤ :=
  match splitChar '-' t with
  | [a, b] => ((pyInt a).getD 0, (pyInt b).getD 0)
  | _ => (0, 0)

/-! ## Claims about the Region Selector -/

/-- C5: `inRegions` returns true iff the residue number lies in at least one
closed interval of the region set; an empty set matches nothing, and an
interval with `start > end` matches nothing. -/
theorem c5_region_contains_iff (regs : List (ℤ × ℤ)) (n s e : ℤ) (h : s > e) :
    (inRegions regs n = true ↔ ∃ p ∈ regs, p.1 ≤ n ∧ n ≤ p.2)
    ∧ inRegions [] n = false
    ∧ inRegions [(s, e)] n = false := by
  refine ⟨?_, rfl, ?_⟩
  · simp [inRegions, List.any_eq_true]
  · simp only [inRegions, List.any_cons, List.any_nil, Bool.or_false,
      decide_eq_false_iff_not]
    omega

/-- Witness for C5 at a concrete region set, residue number and malformed
interval. -/
theorem c5_region_contains_iff_witness :
    (7 : ℤ) > 3 ∧
    ((inRegions [((45 : ℤ), (55 : ℤ))] 50 = true ↔
        ∃ p ∈ [((45 : ℤ), (55 : ℤ))], p.1 ≤ 50 ∧ (50 : ℤ) ≤ p.2)
      ∧ inRegions [] (50 : ℤ) = false
      ∧ inRegions [((7 : ℤ), (3 : ℤ))] 50 = false) :=
  ⟨by decide, c5_region_contains_iff [(45, 55)] 50 7 3 (by decide)⟩

/-- `parsePart` succeeds exactly on tokens of the right shape. -/
theorem parsePart_ok_iff (t : List Char) :
    (∃ v, parsePart t = .ok v) ↔ tokenGood t = true := by
  unfold parsePart tokenGood
  cases h : splitChar '-' t with
  | nil => simp
  | cons a rest =>
    cases rest with
    | nil => simp
    | cons b rest2 =>
      cases rest2 with
      | nil => cases ha : pyInt a <;> cases hb : pyInt b <;> simp [ha, hb]
      | cons c rest3 => simp

/-- On a well-formed token, `parsePart` returns the token's value. -/
theorem parsePart_ok_val (t : List Char) (h : tokenGood t = true) :
    parsePart t = .ok (tokenVal t) := by
  unfold tokenGood at h
  unfold parsePart tokenVal
  cases hs : splitChar '-' t with
  | nil => rw [hs] at h; exact absurd h (by simp)
  | cons a rest =>
    cases rest with
    | nil => rw [hs] at h; exact absurd h (by simp)
    | cons b rest2 =>
      cases rest2 with
      | nil =>
        rw [hs] at h
        cases ha : pyInt a <;> cases hb : pyInt b <;> simp [ha, hb] at h ⊢
      | cons c rest3 => rw [hs] at h; exact absurd h (by simp)

/-- `parseParts` succeeds exactly when every token is well-formed. -/
theorem parseParts_ok_iff (L : List (List Char)) :
    (∃ l, parseParts L = .ok l) ↔ ∀ t ∈ L, tokenGood t = true := by
  induction L with
  | nil => simp [parseParts]
  | cons p rest ih =>
    simp only [parseParts, List.mem_cons]
    constructor
    · rintro ⟨l, hl⟩ t ht
      cases hp : parsePart p with
      | error e => rw [hp] at hl; exact absurd hl (by simp)
      | ok pr =>
        rw [hp] at hl
        cases hr : parseParts rest with
        | error e => rw [hr] at hl; exact absurd hl (by simp)
        | ok l2 =>
          rcases ht with h | h
          · subst h; exact (parsePart_ok_iff t).mp ⟨pr, hp⟩
          · exact ih.mp ⟨l2, hr⟩ t h
    · intro hall
      obtain ⟨pr, hp⟩ := (parsePart_ok_iff p).mpr (hall p (Or.inl rfl))
      obtain ⟨l2, hr⟩ := ih.mpr (fun t ht => hall t (Or.inr ht))
      exact ⟨pr :: l2, by rw [hp, hr]⟩

/-- On an all-well-formed token list, `parseParts` returns the values in
token order. -/
theorem parseParts_val (L : List (List Char)) (h : ∀ t ∈ L, tokenGood t = true) :
    parseParts L = .ok (L.map tokenVal) := by
  induction L with
  | nil => rfl
  | cons p rest ih =>
    have hp : parsePart p = .ok (tokenVal p) :=
      parsePart_ok_val p (h p (by simp))
    have hr : parseParts rest = .ok (rest.map tokenVal) :=
      ih (fun t ht => h t (by simp [ht]))
    simp [parseParts, hp, hr]

/-- C6: `parse_ranges` fails exactly when some comma-separated token is not
two `int()`-valid integers around a single hyphen; otherwise it returns the
`(start, end)` pairs in token order. -/
theorem c6_parse_ranges_fail_iff (s : String) :
    ((∃ l, parse_ranges s = .ok l) ↔
      ∀ t ∈ splitChar ',' s.data, tokenGood t = true)
    ∧ ((∀ t ∈ splitChar ',' s.data, tokenGood t = true) →
      parse_ranges s = .ok ((splitChar ',' s.data).map tokenVal)) :=
  ⟨parseParts_ok_iff (splitChar ',' s.data),
   fun h => parseParts_val (splitChar ',' s.data) h⟩

/-- Witness for C6: a good spec parses to its pairs; a spec with a malformed
token fails. -/
theorem c6_parse_ranges_fail_iff_witness :
    parse_ranges "45-55,120-130" = .ok [(45, 55), (120, 130)]
    ∧ ∀ l, parse_ranges "45-55,1-2-3" ≠ .ok l := by
  constructor
  · have h := (c6_parse_ranges_fail_iff "45-55,120-130").2 (by decide)
    rw [h]
    have : (splitChar ',' "45-55,120-130".data).map tokenVal
        = [(45, 55), (120, 130)] := by decide
    rw [this]
  · intro l hl
    have h := (c6_parse_ranges_fail_iff "45-55,1-2-3").1.mp ⟨l, hl⟩
    exact absurd h (by decide)

/-! ## Claims about the `gmx2pdb_strip` filter -/

/-- C10: `accept_atom` accepts exactly the three disjuncts — a standard
amino acid of an ordinary residue (any atom), the six listed atoms of an
ordinary `CYSP` residue, or the `ZN` atom of a `ZN` heteroatom residue —
and every water and every other heteroatom is rejected. -/
theorem c10_accept_atom_iff (res : Residue) (a : Atom) :
    (ProteinSelect.accept_atom res a = true ↔
      (res.hetfield = " " ∧ res.resname ∈ ProteinSelect.standard_aa)
      ∨ (res.hetfield = " " ∧ res.resname = "CYSP"
          ∧ a.name ∈ ["N", "CA", "C", "O", "CB", "SG"])
      ∨ (strStartsWith res.hetfield.data ['H', '_'] = true
          ∧ res.resname = "ZN" ∧ a.name = "ZN"))
    ∧ (res.hetfield = "W" → ProteinSelect.accept_atom res a = false)
    ∧ (strStartsWith res.hetfield.data ['H', '_'] = true →
        ¬(res.resname = "ZN" ∧ a.name = "ZN") →
        ProteinSelect.accept_atom res a = false) := by
  have hsw : strStartsWith (" " : String).data ['H', '_'] = false := by decide
  refine ⟨?_, ?_, ?_⟩
  · unfold ProteinSelect.accept_atom
    by_cases h1 : res.hetfield = " "
    · rw [h1]
      by_cases h2 : res.resname ∈ ProteinSelect.standard_aa
      · simp [h2, hsw]
      · by_cases h3 : res.resname = "CYSP"
        · simp [h2, h3, hsw]
        · simp [h2, h3, hsw]
    · rw [if_neg h1]
      by_cases h4 : strStartsWith res.hetfield.data ['H', '_'] = true
      · simp [h1, h4]
      · simp [h1, h4]
  · intro hw
    unfold ProteinSelect.accept_atom
    rw [hw]
    simp [show ("W" : String) ≠ " " from by decide,
      show strStartsWith ("W" : String).data ['H', '_'] = false from by decide]
  · intro h4 hne
    unfold ProteinSelect.accept_atom
    by_cases h1 : res.hetfield = " "
    · rw [h1] at h4
      exact absurd h4 (by simp [hsw])
    · rw [if_neg h1, if_pos h4]
      rcases Decidable.em (res.resname = "ZN") with hz | hz
      · rcases Decidable.em (a.name = "ZN") with hzz | hzz
        · exact absurd ⟨hz, hzz⟩ hne
        · simp [hzz]
      · simp [hz]

/-- Witness for C10: a water and a sulfate heteroatom are rejected. -/
theorem c10_accept_atom_iff_witness :
    ProteinSelect.accept_atom ⟨"W", 1, "HOH", []⟩ ⟨"O", ⟨0, 0, 0⟩⟩ = false
    ∧ ProteinSelect.accept_atom ⟨"H_SO4", 2, "SO4", []⟩ ⟨"S", ⟨0, 0, 0⟩⟩ = false :=
  ⟨(c10_accept_atom_iff ⟨"W", 1, "HOH", []⟩ ⟨"O", ⟨0, 0, 0⟩⟩).2.1 rfl,
   (c10_accept_atom_iff ⟨"H_SO4", 2, "SO4", []⟩ ⟨"S", ⟨0, 0, 0⟩⟩).2.2
     (by decide) (by decide)⟩

/-! ## Claims about the Atom Classifier -/

/-- Membership in the flattened standard-residue atom list. -/
theorem mem_chainPAtoms (ch : Chain) (pa : PAtom) :
    pa ∈ chainPAtoms ch ↔
      ∃ res ∈ ch.residues, is_aa_std res.resname = true ∧
        ∃ a ∈ res.atoms, pa = mkPAtom res a := by
  unfold chainPAtoms
  rw [List.mem_flatMap]
  constructor
  · rintro ⟨res, hres, hpa⟩
    have h2 := List.mem_filter.mp hres
    obtain ⟨a, ha, hmk⟩ := List.mem_map.mp hpa
    exact ⟨res, h2.1, h2.2, a, ha, hmk.symm⟩
  · rintro ⟨res, hres, hstd, a, ha, hpa⟩
    exact ⟨res, List.mem_filter.mpr ⟨hres, hstd⟩,
      List.mem_map.mpr ⟨a, ha, hpa.symm⟩⟩

/-- C7: an atom is in the `backbone` group iff it belongs to a standard
residue and is named exactly `N`, `CA` or `C`; an `O` atom of a standard
residue is in `all` but not in `backbone`. -/
theorem c7_backbone_membership (ch : Chain) (lr er ir : List (ℤ × ℤ)) (pa : PAtom) :
    (pa ∈ (atom_groups ch lr er ir).backbone ↔
      ∃ res ∈ ch.residues, is_aa_std res.resname = true ∧
        ∃ a ∈ res.atoms, pa = mkPAtom res a ∧
          (pa.name = "N" ∨ pa.name = "CA" ∨ pa.name = "C"))
    ∧ ∀ res ∈ ch.residues, is_aa_std res.resname = true →
        ∀ a ∈ res.atoms, a.name = "O" →
          mkPAtom res a ∈ (atom_groups ch lr er ir).all ∧
          mkPAtom res a ∉ (atom_groups ch lr er ir).backbone := by
  have hbb : ∀ q : PAtom, q ∈ (atom_groups ch lr er ir).backbone ↔
      q ∈ chainPAtoms ch ∧ decide (q.name ∈ ["N", "CA", "C"]) = true := by
    intro q
    simp only [atom_groups]
    exact List.mem_filter
  constructor
  · constructor
    · intro h
      obtain ⟨hmem, hname⟩ := (hbb pa).mp h
      obtain ⟨res, hres, hstd, a, ha, hpa⟩ := (mem_chainPAtoms ch pa).mp hmem
      refine ⟨res, hres, hstd, a, ha, hpa, ?_⟩
      simpa using of_decide_eq_true hname
    · rintro ⟨res, hres, hstd, a, ha, hpa, hname⟩
      refine (hbb pa).mpr ⟨(mem_chainPAtoms ch pa).mpr ⟨res, hres, hstd, a, ha, hpa⟩, ?_⟩
      apply decide_eq_true
      simpa using hname
  · intro res hres hstd a ha hO
    constructor
    · show mkPAtom res a ∈ chainPAtoms ch
      exact (mem_chainPAtoms ch _).mpr ⟨res, hres, hstd, a, ha, rfl⟩
    · intro hmem
      obtain ⟨_, hname⟩ := (hbb _).mp hmem
      have := of_decide_eq_true hname
      rw [show (mkPAtom res a).name = a.name from rfl, hO] at this
      simp at this

/-- Witness data: a standard alanine residue with backbone and `O` atoms. -/
def wres : Residue :=
  ⟨" ", 5, "ALA", [⟨"N", ⟨0, 0, 0⟩⟩, ⟨"CA", ⟨1, 0, 0⟩⟩, ⟨"O", ⟨2, 0, 0⟩⟩]⟩

/-- Witness data: a zinc heteroatom residue (not a standard amino acid). -/
def wresZn : Residue := ⟨"H_ZN", 90, "ZN", [⟨"ZN", ⟨3, 3, 3⟩⟩]⟩

/-- Witness data: a chain with one standard and one hetero residue. -/
def wch : Chain := ⟨[wres, wresZn]⟩

/-- Witness for C7: the `O` atom of the alanine is in `all` but not in
`backbone`. -/
theorem c7_backbone_membership_witness :
    mkPAtom wres ⟨"O", ⟨2, 0, 0⟩⟩ ∈ (atom_groups wch [] [] []).all
    ∧ mkPAtom wres ⟨"O", ⟨2, 0, 0⟩⟩ ∉ (atom_groups wch [] [] []).backbone :=
  (c7_backbone_membership wch [] [] [] (mkPAtom wres ⟨"O", ⟨2, 0, 0⟩⟩)).2
    wres (by decide) (by decide) ⟨"O", ⟨2, 0, 0⟩⟩ (by decide) rfl

/-- C8: `atom_groups` ignores non-standard residues entirely (the groups
computed on a chain equal those computed on its standard-residue
restriction, and a chain of only non-standard residues yields an empty
`all`), while a standard residue lying in both the `loop` and `ec` region
sets contributes each atom to both groups. -/
theorem c8_nonstandard_excluded_overlap_both (ch : Chain) (lr er ir : List (ℤ × ℤ)) :
    (atom_groups ch lr er ir =
      atom_groups ⟨ch.residues.filter (fun r => is_aa_std r.resname)⟩ lr er ir)
    ∧ (∀ res ∈ ch.residues, is_aa_std res.resname = true →
        ∀ a ∈ res.atoms, inRegions lr res.seq = true → inRegions er res.seq = true →
          mkPAtom res a ∈ (atom_groups ch lr er ir).loop ∧
          mkPAtom res a ∈ (atom_groups ch lr er ir).ec)
    ∧ ((∀ r ∈ ch.residues, is_aa_std r.resname = false) →
        (atom_groups ch lr er ir).all = []) := by
  refine ⟨?_, ?_, ?_⟩
  · have hfil : chainPAtoms ⟨ch.residues.filter (fun r => is_aa_std r.resname)⟩
        = chainPAtoms ch := by
      unfold chainPAtoms
      rw [show (⟨ch.residues.filter (fun r => is_aa_std r.resname)⟩ : Chain).residues
        = ch.residues.filter (fun r => is_aa_std r.resname) from rfl]
      rw [List.filter_filter]
      simp
    simp [atom_groups, hfil]
  · intro res hres hstd a ha hl he
    have hmem : mkPAtom res a ∈ chainPAtoms ch :=
      (mem_chainPAtoms ch _).mpr ⟨res, hres, hstd, a, ha, rfl⟩
    have hseq : (mkPAtom res a).resseq = res.seq := rfl
    constructor
    · show mkPAtom res a ∈ (chainPAtoms ch).filter _
      exact List.mem_filter.mpr ⟨hmem, by rw [hseq]; exact hl⟩
    · show mkPAtom res a ∈ (chainPAtoms ch).filter _
      exact List.mem_filter.mpr ⟨hmem, by rw [hseq]; exact he⟩
  · intro h
    show chainPAtoms ch = []
    unfold chainPAtoms
    rw [List.filter_eq_nil_iff.mpr (fun r hr => by simp [h r hr])]
    rfl

/-- Witness for C8: the alanine's `CA` sits in both `loop` and `ec` when
both regions contain residue 5, and the zinc-only chain yields an empty
`all`. -/
theorem c8_nonstandard_excluded_overlap_both_witness :
    (mkPAtom wres ⟨"CA", ⟨1, 0, 0⟩⟩ ∈ (atom_groups wch [(1, 10)] [(4, 6)] []).loop
      ∧ mkPAtom wres ⟨"CA", ⟨1, 0, 0⟩⟩ ∈ (atom_groups wch [(1, 10)] [(4, 6)] []).ec)
    ∧ (atom_groups ⟨[wresZn]⟩ [(1, 10)] [(4, 6)] []).all = [] :=
  ⟨(c8_nonstandard_excluded_overlap_both wch [(1, 10)] [(4, 6)] []).2.1
      wres (by decide) (by decide) ⟨"CA", ⟨1, 0, 0⟩⟩ (by decide) (by decide) (by decide),
   (c8_nonstandard_excluded_overlap_both ⟨[wresZn]⟩ [(1, 10)] [(4, 6)] []).2.2
      (by decide)⟩

/-! ## Claims about the Atom Correspondence Builder -/

/-- A key found in a dictionary lookup is the key looked up. -/
theorem mkKey_dictGetD (atoms : List PAtom) (k : ℤ × String)
    (h : k ∈ atoms.map mkKey) : mkKey (dictGetD atoms k) = k := by
  unfold dictGetD
  cases hf : atoms.reverse.find? (fun a => decide (mkKey a = k)) with
  | none =>
    obtain ⟨a, ha, hk⟩ := List.mem_map.mp h
    have := List.find?_eq_none.mp hf a (List.mem_reverse.mpr ha)
    exact absurd (decide_eq_true hk) this
  | some a =>
    have := List.find?_some hf
    simpa using of_decide_eq_true this

/-- Every shared key is a key on both sides. -/
theorem interKeys_mem (refAtoms cvAtoms : List PAtom) (k : ℤ × String)
    (h : k ∈ interKeys refAtoms cvAtoms) :
    k ∈ refAtoms.map mkKey ∧ k ∈ cvAtoms.map mkKey := by
  unfold interKeys dictKeysOf at h
  have h2 := List.mem_filter.mp h
  exact ⟨List.mem_dedup.mp h2.1, of_decide_eq_true h2.2⟩

/-- C9: the two atom lists handed to the Superposition Engine are generated
by one iteration over the shared keys: they have equal length and the `i`-th
atoms on both sides carry the same `(residue_number, atom_name)` key. -/
theorem c9_fit_inputs_key_aligned (refAtoms cvAtoms : List PAtom) :
    ((fitInputs refAtoms cvAtoms).1.length = (fitInputs refAtoms cvAtoms).2.length)
    ∧ ∀ i (h1 : i < (fitInputs refAtoms cvAtoms).1.length)
        (h2 : i < (fitInputs refAtoms cvAtoms).2.length),
        mkKey ((fitInputs refAtoms cvAtoms).1.get ⟨i, h1⟩)
          = mkKey ((fitInputs refAtoms cvAtoms).2.get ⟨i, h2⟩) := by
  constructor
  · simp [fitInputs]
  · intro i h1 h2
    have hlen : i < (interKeys refAtoms cvAtoms).length := by
      simpa [fitInputs] using h1
    simp only [fitInputs, List.get_eq_getElem, List.getElem_map]
    have hmem : (interKeys refAtoms cvAtoms)[i] ∈ interKeys refAtoms cvAtoms := by
      apply List.getElem_mem
    obtain ⟨hr, hc⟩ := interKeys_mem refAtoms cvAtoms _ hmem
    rw [mkKey_dictGetD refAtoms _ hr, mkKey_dictGetD cvAtoms _ hc]

/-- Witness for C9 on concrete two-key lists. -/
theorem c9_fit_inputs_key_aligned_witness :
    (0 : ℕ) < (fitInputs [⟨5, "CA", ⟨1, 0, 0⟩⟩, ⟨6, "CA", ⟨2, 0, 0⟩⟩]
        [⟨6, "CA", ⟨5, 5, 5⟩⟩, ⟨5, "CA", ⟨4, 4, 4⟩⟩]).1.length
    ∧ mkKey ((fitInputs [⟨5, "CA", ⟨1, 0, 0⟩⟩, ⟨6, "CA", ⟨2, 0, 0⟩⟩]
          [⟨6, "CA", ⟨5, 5, 5⟩⟩, ⟨5, "CA", ⟨4, 4, 4⟩⟩]).1.get ⟨0, by decide⟩)
      = mkKey ((fitInputs [⟨5, "CA", ⟨1, 0, 0⟩⟩, ⟨6, "CA", ⟨2, 0, 0⟩⟩]
          [⟨6, "CA", ⟨5, 5, 5⟩⟩, ⟨5, "CA", ⟨4, 4, 4⟩⟩]).2.get ⟨0, by decide⟩) :=
  ⟨by decide,
   (c9_fit_inputs_key_aligned [⟨5, "CA", ⟨1, 0, 0⟩⟩, ⟨6, "CA", ⟨2, 0, 0⟩⟩]
      [⟨6, "CA", ⟨5, 5, 5⟩⟩, ⟨5, "CA", ⟨4, 4, 4⟩⟩]).2 0 (by decide) (by decide)⟩

/-! ## The in-place transform and what it preserves -/

/-- The coordinate-only update a superposition applies to a group-list atom
(via its aliased chain atom). -/
def trP (rot : Mat3) (tran : Vec3) (pa : PAtom) : PAtom :=
  { pa with coord := applyRotTran rot tran pa.coord }

/-- Transforming the chain maps every flattened atom's coordinate and
nothing else. -/
theorem chainPAtoms_transform (rot : Mat3) (tran : Vec3) (c : Chain) :
    chainPAtoms (transformChain rot tran c)
      = (chainPAtoms c).map (trP rot tran) := by
  simp only [chainPAtoms, transformChain, trP, List.filter_map, List.flatMap_map,
    List.map_flatMap, List.map_map]
  rfl

/-- Group lookup commutes with a componentwise map of all five groups. -/
theorem AtomGroups.get_map_eq (G G' : AtomGroups) (f : PAtom → PAtom)
    (h1 : G'.all = G.all.map f) (h2 : G'.backbone = G.backbone.map f)
    (h3 : G'.loop = G.loop.map f) (h4 : G'.ec = G.ec.map f)
    (h5 : G'.ic = G.ic.map f) (g : String) :
    G'.get g = (G.get g).map f := by
  unfold AtomGroups.get
  split <;> simp_all

/-- Every group of the transformed chain is the original group with the
transform applied to each member's coordinate. -/
theorem atom_groups_transform (rot : Mat3) (tran : Vec3) (c : Chain)
    (lr er ir : List (ℤ × ℤ)) (g : String) :
    (atom_groups (transformChain rot tran c) lr er ir).get g
      = ((atom_groups c lr er ir).get g).map (trP rot tran) := by
  apply AtomGroups.get_map_eq
  · exact chainPAtoms_transform rot tran c
  · show (chainPAtoms (transformChain rot tran c)).filter _
      = ((chainPAtoms c).filter _).map (trP rot tran)
    rw [chainPAtoms_transform, List.filter_map]
    rfl
  · show (chainPAtoms (transformChain rot tran c)).filter _
      = ((chainPAtoms c).filter _).map (trP rot tran)
    rw [chainPAtoms_transform, List.filter_map]
    rfl
  · show (chainPAtoms (transformChain rot tran c)).filter _
      = ((chainPAtoms c).filter _).map (trP rot tran)
    rw [chainPAtoms_transform, List.filter_map]
    rfl
  · show (chainPAtoms (transformChain rot tran c)).filter _
      = ((chainPAtoms c).filter _).map (trP rot tran)
    rw [chainPAtoms_transform, List.filter_map]
    rfl

/-- Transforming the chain never changes any group's key list: membership in
a group and the correspondence keys are coordinate-independent. -/
theorem groupKeys_transform (rot : Mat3) (tran : Vec3) (c : Chain)
    (lr er ir : List (ℤ × ℤ)) (g : String) :
    ((atom_groups (transformChain rot tran c) lr er ir).get g).map mkKey
      = ((atom_groups c lr er ir).get g).map mkKey := by
  rw [atom_groups_transform, List.map_map]
  rfl

/-- Two chain states with identical group key lists (the relation every
intermediate state of the loop bears to the initial converted chain). -/
def keysLike (lr er ir : List (ℤ × ℤ)) (c c0 : Chain) : Prop :=
  ∀ g, ((atom_groups c lr er ir).get g).map mkKey
    = ((atom_groups c0 lr er ir).get g).map mkKey

/-- `keysLike` is reflexive. -/
theorem keysLike_refl (lr er ir : List (ℤ × ℤ)) (c : Chain) :
    keysLike lr er ir c c :=
  fun _ => rfl

/-- `keysLike` is transitive. -/
theorem keysLike_trans {lr er ir : List (ℤ × ℤ)} {a b c : Chain}
    (h1 : keysLike lr er ir a b) (h2 : keysLike lr er ir b c) :
    keysLike lr er ir a c :=
  fun g => (h1 g).trans (h2 g)

/-- The shared key list only depends on the converted side through its key
list. -/
theorem interKeys_congr_cv (R : List PAtom) {C C' : List PAtom}
    (h : C.map mkKey = C'.map mkKey) : interKeys R C = interKeys R C' := by
  unfold interKeys
  rw [h]

/-- One loop iteration either leaves the converted chain alone (no shared
keys) or applies one rigid transform to all of it. -/
theorem processGroup_snd_cases (svdRot : Mat3 → Mat3) (lr er ir : List (ℤ × ℤ))
    (g : String) (R : List PAtom) (cv : Chain) :
    (processGroup svdRot lr er ir g R cv).2 = cv
    ∨ ∃ rot tran, (processGroup svdRot lr er ir g R cv).2
        = transformChain rot tran cv := by
  unfold processGroup
  cases h : interKeys R ((atom_groups cv lr er ir).get g) with
  | nil => left; simp [h]
  | cons k ks =>
    right
    exact ⟨(runFit svdRot
        (List.map PAtom.coord (fitInputs R ((atom_groups cv lr er ir).get g)).1)
        (List.map PAtom.coord (fitInputs R ((atom_groups cv lr er ir).get g)).2)).rot,
      (runFit svdRot
        (List.map PAtom.coord (fitInputs R ((atom_groups cv lr er ir).get g)).1)
        (List.map PAtom.coord (fitInputs R ((atom_groups cv lr er ir).get g)).2)).tran,
      by simp [h]⟩

/-- A single matched point is reproduced exactly by the translation, so the
mean squared deviation is zero whatever rotation the SVD step returns. -/
theorem runFit_single (svdRot : Mat3 → Mat3) (u v : Vec3) :
    (runFit svdRot [u] [v]).msd = 0 := by
  simp only [runFit, List.length_cons, List.length_nil, List.foldl,
    List.map, List.zip, List.zipWith, List.sum_cons, List.sum_nil,
    Vec3.add, Vec3.sub, Vec3.scale, mulVecMat, applyRotTran, normSq]
  push_cast
  field_simp

/-- With no shared keys the loop records no RMSD for the group. -/
theorem processGroup_fst_none (svdRot : Mat3 → Mat3) (lr er ir : List (ℤ × ℤ))
    (g : String) (R : List PAtom) (cv : Chain)
    (h : interKeys R ((atom_groups cv lr er ir).get g) = []) :
    (processGroup svdRot lr er ir g R cv).1 = none := by
  unfold processGroup
  simp [h]

/-- With a nonempty shared key set the loop records an RMSD for the group. -/
theorem processGroup_fst_some (svdRot : Mat3 → Mat3) (lr er ir : List (ℤ × ℤ))
    (g : String) (R : List PAtom) (cv : Chain)
    (h : interKeys R ((atom_groups cv lr er ir).get g) ≠ []) :
    (processGroup svdRot lr er ir g R cv).1
      = some ((runFit svdRot
          (List.map PAtom.coord (fitInputs R ((atom_groups cv lr er ir).get g)).1)
          (List.map PAtom.coord (fitInputs R ((atom_groups cv lr er ir).get g)).2)).msd) := by
  unfold processGroup
  cases hk : interKeys R ((atom_groups cv lr er ir).get g) with
  | nil => exact absurd hk h
  | cons k ks => simp [hk]

/-- With exactly one shared key the recorded mean squared deviation is
exactly zero. -/
theorem processGroup_fst_single (svdRot : Mat3 → Mat3) (lr er ir : List (ℤ × ℤ))
    (g : String) (R : List PAtom) (cv : Chain) (k : ℤ × String)
    (h : interKeys R ((atom_groups cv lr er ir).get g) = [k]) :
    (processGroup svdRot lr er ir g R cv).1 = some 0 := by
  rw [processGroup_fst_some svdRot lr er ir g R cv (by rw [h]; exact List.cons_ne_nil k [])]
  simp only [fitInputs, h, List.map]
  rw [runFit_single]

/-- With a nonempty shared key set the loop transforms the whole converted
chain with the fitted rotation and translation. -/
theorem processGroup_snd_some (svdRot : Mat3 → Mat3) (lr er ir : List (ℤ × ℤ))
    (g : String) (R : List PAtom) (cv : Chain)
    (h : interKeys R ((atom_groups cv lr er ir).get g) ≠ []) :
    ∃ rot tran, (processGroup svdRot lr er ir g R cv).2
      = transformChain rot tran cv := by
  unfold processGroup
  cases hk : interKeys R ((atom_groups cv lr er ir).get g) with
  | nil => exact absurd hk h
  | cons a as =>
    exact ⟨(runFit svdRot
        (List.map PAtom.coord (fitInputs R ((atom_groups cv lr er ir).get g)).1)
        (List.map PAtom.coord (fitInputs R ((atom_groups cv lr er ir).get g)).2)).rot,
      (runFit svdRot
        (List.map PAtom.coord (fitInputs R ((atom_groups cv lr er ir).get g)).1)
        (List.map PAtom.coord (fitInputs R ((atom_groups cv lr er ir).get g)).2)).tran,
      by simp [hk]⟩

/-- The loop never replaces the reference chain: only the converted chain's
coordinates are written. -/
theorem processGroups_ref (svdRot : Mat3 → Mat3) (lr er ir : List (ℤ × ℤ))
    (names : List String) (st : Chain × Chain) :
    (processGroups svdRot lr er ir names st).2.1 = st.1 := by
  induction names generalizing st with
  | nil => rfl
  | cons g rest ih =>
    simp only [processGroups, processGroupSt]
    exact ih _

/-- The `results` entries pair exactly the processed group names, in
order. -/
theorem processGroups_fst (svdRot : Mat3 → Mat3) (lr er ir : List (ℤ × ℤ))
    (names : List String) (st : Chain × Chain) :
    ((processGroups svdRot lr er ir names st).1).map Prod.fst = names := by
  induction names generalizing st with
  | nil => rfl
  | cons g rest ih =>
    simp only [processGroups, List.map_cons]
    rw [ih]

/-- Every processed group name has a `results` entry. -/
theorem processGroups_exists_result (svdRot : Mat3 → Mat3) (lr er ir : List (ℤ × ℤ))
    (names : List String) (st : Chain × Chain) (g : String) (hg : g ∈ names) :
    ∃ r, (g, r) ∈ (processGroups svdRot lr er ir names st).1 := by
  rw [← processGroups_fst svdRot lr er ir names st] at hg
  obtain ⟨gr, hmem, hfst⟩ := List.mem_map.mp hg
  exact ⟨gr.2, by rwa [← hfst]⟩

/-- Appending one more group to the loop processes it last, on the state the
earlier groups produced: each group's fit reads the coordinates already
rewritten by every earlier group's alignment. -/
theorem processGroups_append (svdRot : Mat3 → Mat3) (lr er ir : List (ℤ × ℤ))
    (names : List String) (g2 : String) (st : Chain × Chain) :
    processGroups svdRot lr er ir (names ++ [g2]) st
      = ((processGroups svdRot lr er ir names st).1
          ++ [(g2, (processGroupSt svdRot lr er ir g2
                (processGroups svdRot lr er ir names st).2).1)],
         (processGroupSt svdRot lr er ir g2
            (processGroups svdRot lr er ir names st).2).2) := by
  induction names generalizing st with
  | nil => simp [processGroups]
  | cons g rest ih =>
    simp only [List.cons_append, processGroups, List.append_eq]
    rw [ih]

/-- Every recorded result arises from processing its group's reference atom
list against some chain state whose group key lists agree with the initial
converted chain's (the in-place transforms never change any key). -/
theorem processGroups_result_origin (svdRot : Mat3 → Mat3) (lr er ir : List (ℤ × ℤ))
    (names : List String) (refC cv0 : Chain) :
    ∀ cv : Chain, keysLike lr er ir cv cv0 →
      ∀ g r, (g, r) ∈ (processGroups svdRot lr er ir names (refC, cv)).1 →
        ∃ cv', keysLike lr er ir cv' cv0
          ∧ r = (processGroup svdRot lr er ir g
              ((atom_groups refC lr er ir).get g) cv').1 := by
  induction names with
  | nil => intro cv hcv g r h; simp [processGroups] at h
  | cons gn rest ih =>
    intro cv hcv g r h
    simp only [processGroups, processGroupSt] at h
    rcases List.mem_cons.mp h with heq | hmem
    · rw [Prod.mk.injEq] at heq
      obtain ⟨rfl, rfl⟩ := heq
      exact ⟨cv, hcv, rfl⟩
    · have hnew : keysLike lr er ir
          (processGroup svdRot lr er ir gn
            ((atom_groups refC lr er ir).get gn) cv).2 cv0 := by
        rcases processGroup_snd_cases svdRot lr er ir gn
            ((atom_groups refC lr er ir).get gn) cv with hsame | ⟨rot, tran, htr⟩
        · rwa [hsame]
        · rw [htr]
          exact keysLike_trans
            (fun g' => groupKeys_transform rot tran cv lr er ir g') hcv
      exact ih _ hnew g r hmem

/-- A `results` entry yields its report row. -/
theorem report_row_mem (svdRot : Mat3 → Mat3) (refC cvC : Chain)
    (lr er ir : List (ℤ × ℤ)) (g : String) (r : Option ℚ)
    (h : (g, r) ∈ (processGroups svdRot lr er ir groupNames (refC, cvC)).1) :
    (g, nAtomsOf ((atom_groups refC lr er ir).get g), renderRms r)
      ∈ computeRmsdMain svdRot refC cvC lr er ir := by
  unfold computeRmsdMain reportRows
  exact List.mem_map.mpr ⟨(g, r), h, rfl⟩

/-- Transforming a chain rewrites the coordinate of every atom at every
residue/atom index, and changes no atom name. -/
theorem coordAt_transformChain (rot : Mat3) (tran : Vec3) (c : Chain) (i j : ℕ) :
    coordAt (transformChain rot tran c) i j
      = (coordAt c i j).map (applyRotTran rot tran)
    ∧ nameAt (transformChain rot tran c) i j = nameAt c i j := by
  unfold coordAt nameAt transformChain
  cases hres : c.residues[i]? with
  | none => simp [hres]
  | some r =>
    simp only [List.getElem?_map, hres, Option.map_some, Option.bind_some]
    cases hat : r.atoms[j]? with
    | none => simp [hat]
    | some a => simp [hat]

/-! ## Claims about the Group Report Assembler -/

/-- C1: every report row's `n_atoms` is the number of distinct
reference-side keys of its group (not the intersection size); a group whose
reference and target share no keys still reports that count, with the RMSD
absent; and the recorded fit result depends on the reference group list only
through the atoms whose keys lie in the intersection. -/
theorem c1_n_atoms_ref_side_rmsd_intersection (svdRot : Mat3 → Mat3)
    (refC cvC : Chain) (lr er ir : List (ℤ × ℤ)) (grp : String)
    (hg : grp ∈ groupNames) (R1 R2 : List PAtom) (cv : Chain)
    (hk : interKeys R1 ((atom_groups cv lr er ir).get grp)
        = interKeys R2 ((atom_groups cv lr er ir).get grp))
    (hv : ∀ k ∈ interKeys R1 ((atom_groups cv lr er ir).get grp),
        dictGetD R1 k = dictGetD R2 k) :
    (∃ n r, (grp, n, r) ∈ computeRmsdMain svdRot refC cvC lr er ir
      ∧ n = (((atom_groups refC lr er ir).get grp).map mkKey).toFinset.card
      ∧ (interKeys ((atom_groups refC lr er ir).get grp)
            ((atom_groups cvC lr er ir).get grp) = [] → r = "NA"))
    ∧ processGroup svdRot lr er ir grp R1 cv
        = processGroup svdRot lr er ir grp R2 cv := by
  constructor
  · obtain ⟨r, hr⟩ :=
      processGroups_exists_result svdRot lr er ir groupNames (refC, cvC) grp hg
    refine ⟨nAtomsOf ((atom_groups refC lr er ir).get grp), renderRms r,
      report_row_mem svdRot refC cvC lr er ir grp r hr, ?_, ?_⟩
    · unfold nAtomsOf
      rw [List.card_toFinset]
    · intro hempty
      obtain ⟨cv', hlike, hrval⟩ :=
        processGroups_result_origin svdRot lr er ir groupNames refC cvC cvC
          (keysLike_refl lr er ir cvC) grp r hr
      have hempty2 : interKeys ((atom_groups refC lr er ir).get grp)
          ((atom_groups cv' lr er ir).get grp) = [] := by
        rw [interKeys_congr_cv _ (hlike grp), hempty]
      rw [hrval, processGroup_fst_none svdRot lr er ir grp _ cv' hempty2]
      rfl
  · have hv2 : (interKeys R2 ((atom_groups cv lr er ir).get grp)).map (dictGetD R1)
        = (interKeys R2 ((atom_groups cv lr er ir).get grp)).map (dictGetD R2) := by
      rw [← hk]
      exact List.map_congr_left hv
    unfold processGroup
    simp only [fitInputs]
    rw [hk, hv2]

/-- Witness for C1: with disjoint `ec` regions the `ec` row of the concrete
run keeps the reference-side count and reports `NA`; and a reference list
extended outside the intersection leaves the group's fit unchanged. -/
theorem c1_n_atoms_ref_side_rmsd_intersection_witness :
    (∃ n r, ("ec", n, r) ∈ computeRmsdMain (fun _ => idMat3) wch
        ⟨[⟨" ", 5, "ALA", [⟨"CA", ⟨7, 8, 9⟩⟩]⟩]⟩ [(1, 10)] [] []
      ∧ n = (((atom_groups wch [(1, 10)] [] []).get "ec").map mkKey).toFinset.card
      ∧ (interKeys ((atom_groups wch [(1, 10)] [] []).get "ec")
            ((atom_groups ⟨[⟨" ", 5, "ALA", [⟨"CA", ⟨7, 8, 9⟩⟩]⟩]⟩
              [(1, 10)] [] []).get "ec") = [] → r = "NA"))
    ∧ processGroup (fun _ => idMat3) [(1, 10)] [] [] "all"
        [⟨5, "CA", ⟨1, 0, 0⟩⟩, ⟨9, "NZ", ⟨4, 4, 4⟩⟩]
        ⟨[⟨" ", 5, "ALA", [⟨"CA", ⟨7, 8, 9⟩⟩]⟩]⟩
      = processGroup (fun _ => idMat3) [(1, 10)] [] [] "all"
        [⟨5, "CA", ⟨1, 0, 0⟩⟩]
        ⟨[⟨" ", 5, "ALA", [⟨"CA", ⟨7, 8, 9⟩⟩]⟩]⟩ :=
  ⟨(c1_n_atoms_ref_side_rmsd_intersection (fun _ => idMat3) wch
      ⟨[⟨" ", 5, "ALA", [⟨"CA", ⟨7, 8, 9⟩⟩]⟩]⟩ [(1, 10)] [] [] "ec" (by decide)
      [⟨5, "CA", ⟨1, 0, 0⟩⟩, ⟨9, "NZ", ⟨4, 4, 4⟩⟩] [⟨5, "CA", ⟨1, 0, 0⟩⟩]
      ⟨[⟨" ", 5, "ALA", [⟨"CA", ⟨7, 8, 9⟩⟩]⟩]⟩ (by decide) (by decide)).1,
   (c1_n_atoms_ref_side_rmsd_intersection (fun _ => idMat3) wch
      ⟨[⟨" ", 5, "ALA", [⟨"CA", ⟨7, 8, 9⟩⟩]⟩]⟩ [(1, 10)] [] [] "all" (by decide)
      [⟨5, "CA", ⟨1, 0, 0⟩⟩, ⟨9, "NZ", ⟨4, 4, 4⟩⟩] [⟨5, "CA", ⟨1, 0, 0⟩⟩]
      ⟨[⟨" ", 5, "ALA", [⟨"CA", ⟨7, 8, 9⟩⟩]⟩]⟩ (by decide) (by decide)).2⟩

/-- C2: a group with shared keys transforms the coordinates of every atom of
the whole converted chain (names untouched); the loop threads that state
into the next group; and the reference chain is never replaced. -/
theorem c2_transform_whole_chain_sequential (svdRot : Mat3 → Mat3)
    (lr er ir : List (ℤ × ℤ)) (names : List String) (st : Chain × Chain)
    (grp g2 : String) (refAtoms : List PAtom) (cv : Chain)
    (hne : interKeys refAtoms ((atom_groups cv lr er ir).get grp) ≠ []) :
    ((processGroups svdRot lr er ir names st).2.1 = st.1)
    ∧ (∃ rot tran, ∀ i j,
        coordAt (processGroup svdRot lr er ir grp refAtoms cv).2 i j
            = (coordAt cv i j).map (applyRotTran rot tran)
          ∧ nameAt (processGroup svdRot lr er ir grp refAtoms cv).2 i j
            = nameAt cv i j)
    ∧ processGroups svdRot lr er ir (names ++ [g2]) st
        = ((processGroups svdRot lr er ir names st).1
            ++ [(g2, (processGroupSt svdRot lr er ir g2
                  (processGroups svdRot lr er ir names st).2).1)],
           (processGroupSt svdRot lr er ir g2
              (processGroups svdRot lr er ir names st).2).2) := by
  refine ⟨processGroups_ref svdRot lr er ir names st, ?_,
    processGroups_append svdRot lr er ir names g2 st⟩
  obtain ⟨rot, tran, htr⟩ :=
    processGroup_snd_some svdRot lr er ir grp refAtoms cv hne
  exact ⟨rot, tran, fun i j => by
    rw [htr]
    exact coordAt_transformChain rot tran cv i j⟩

/-- Witness for C2 on a one-residue converted chain with one shared key. -/
theorem c2_transform_whole_chain_sequential_witness :
    ((processGroups (fun _ => idMat3) [(1, 10)] [] [] ["all"]
        (wch, ⟨[⟨" ", 5, "ALA", [⟨"CA", ⟨7, 8, 9⟩⟩]⟩]⟩)).2.1 = wch)
    ∧ (∃ rot tran, ∀ i j,
        coordAt (processGroup (fun _ => idMat3) [(1, 10)] [] [] "all"
            [⟨5, "CA", ⟨1, 0, 0⟩⟩] ⟨[⟨" ", 5, "ALA", [⟨"CA", ⟨7, 8, 9⟩⟩]⟩]⟩).2 i j
            = (coordAt ⟨[⟨" ", 5, "ALA", [⟨"CA", ⟨7, 8, 9⟩⟩]⟩]⟩ i j).map
                (applyRotTran rot tran)
          ∧ nameAt (processGroup (fun _ => idMat3) [(1, 10)] [] [] "all"
            [⟨5, "CA", ⟨1, 0, 0⟩⟩] ⟨[⟨" ", 5, "ALA", [⟨"CA", ⟨7, 8, 9⟩⟩]⟩]⟩).2 i j
            = nameAt ⟨[⟨" ", 5, "ALA", [⟨"CA", ⟨7, 8, 9⟩⟩]⟩]⟩ i j)
    ∧ processGroups (fun _ => idMat3) [(1, 10)] [] [] (["all"] ++ ["backbone"])
        (wch, ⟨[⟨" ", 5, "ALA", [⟨"CA", ⟨7, 8, 9⟩⟩]⟩]⟩)
        = ((processGroups (fun _ => idMat3) [(1, 10)] [] [] ["all"]
              (wch, ⟨[⟨" ", 5, "ALA", [⟨"CA", ⟨7, 8, 9⟩⟩]⟩]⟩)).1
            ++ [("backbone", (processGroupSt (fun _ => idMat3) [(1, 10)] [] [] "backbone"
                  (processGroups (fun _ => idMat3) [(1, 10)] [] [] ["all"]
                    (wch, ⟨[⟨" ", 5, "ALA", [⟨"CA", ⟨7, 8, 9⟩⟩]⟩]⟩)).2).1)],
           (processGroupSt (fun _ => idMat3) [(1, 10)] [] [] "backbone"
              (processGroups (fun _ => idMat3) [(1, 10)] [] [] ["all"]
                (wch, ⟨[⟨" ", 5, "ALA", [⟨"CA", ⟨7, 8, 9⟩⟩]⟩]⟩)).2).2) :=
  c2_transform_whole_chain_sequential (fun _ => idMat3) [(1, 10)] [] [] ["all"]
    (wch, ⟨[⟨" ", 5, "ALA", [⟨"CA", ⟨7, 8, 9⟩⟩]⟩]⟩) "all" "backbone"
    [⟨5, "CA", ⟨1, 0, 0⟩⟩] ⟨[⟨" ", 5, "ALA", [⟨"CA", ⟨7, 8, 9⟩⟩]⟩]⟩ (by decide)

/-- C3: a group whose reference and target share exactly one correspondence
key is processed without failure and its report row carries RMSD `0.000`. -/
theorem c3_single_key_rmsd_zero (svdRot : Mat3 → Mat3) (refC cvC : Chain)
    (lr er ir : List (ℤ × ℤ)) (grp : String) (k : ℤ × String)
    (hg : grp ∈ groupNames)
    (hone : interKeys ((atom_groups refC lr er ir).get grp)
        ((atom_groups cvC lr er ir).get grp) = [k]) :
    ∃ n, (grp, n, "0.000") ∈ computeRmsdMain svdRot refC cvC lr er ir := by
  obtain ⟨r, hr⟩ :=
    processGroups_exists_result svdRot lr er ir groupNames (refC, cvC) grp hg
  obtain ⟨cv', hlike, hrval⟩ :=
    processGroups_result_origin svdRot lr er ir groupNames refC cvC cvC
      (keysLike_refl lr er ir cvC) grp r hr
  have hone2 : interKeys ((atom_groups refC lr er ir).get grp)
      ((atom_groups cv' lr er ir).get grp) = [k] := by
    rw [interKeys_congr_cv _ (hlike grp), hone]
  have hz : renderRms r = "0.000" := by
    rw [hrval, processGroup_fst_single svdRot lr er ir grp _ cv' k hone2]
    decide
  exact ⟨nAtomsOf ((atom_groups refC lr er ir).get grp),
    by rw [← hz]; exact report_row_mem svdRot refC cvC lr er ir grp r hr⟩

/-- Witness for C3: reference and converted chains sharing only the key
`(5, CA)` in `all` report `0.000` there. -/
theorem c3_single_key_rmsd_zero_witness :
    ∃ n, ("all", n, "0.000") ∈ computeRmsdMain (fun _ => idMat3) wch
      ⟨[⟨" ", 5, "ALA", [⟨"CA", ⟨7, 8, 9⟩⟩]⟩]⟩ [(1, 10)] [] [] :=
  c3_single_key_rmsd_zero (fun _ => idMat3) wch
    ⟨[⟨" ", 5, "ALA", [⟨"CA", ⟨7, 8, 9⟩⟩]⟩]⟩ [(1, 10)] [] [] "all" (5, "CA")
    (by decide) (by decide)

/-- C4: an empty intersection is not an error: the loop records the group
with an absent RMSD rendered `NA` and the report still carries one row per
group, five in all, in order. -/
theorem c4_empty_intersection_na_continues (svdRot : Mat3 → Mat3)
    (refC cvC : Chain) (lr er ir : List (ℤ × ℤ)) (grp : String)
    (hg : grp ∈ groupNames)
    (hempty : interKeys ((atom_groups refC lr er ir).get grp)
        ((atom_groups cvC lr er ir).get grp) = []) :
    ((computeRmsdMain svdRot refC cvC lr er ir).map Prod.fst = groupNames)
    ∧ (computeRmsdMain svdRot refC cvC lr er ir).length = 5
    ∧ ∃ n, (grp, n, "NA") ∈ computeRmsdMain svdRot refC cvC lr er ir := by
  have hfst : (computeRmsdMain svdRot refC cvC lr er ir).map Prod.fst
      = groupNames := by
    unfold computeRmsdMain reportRows
    rw [List.map_map]
    exact processGroups_fst svdRot lr er ir groupNames (refC, cvC)
  refine ⟨hfst, ?_, ?_⟩
  · have hlen := congrArg List.length hfst
    rwa [List.length_map] at hlen
  · obtain ⟨r, hr⟩ :=
      processGroups_exists_result svdRot lr er ir groupNames (refC, cvC) grp hg
    obtain ⟨cv', hlike, hrval⟩ :=
      processGroups_result_origin svdRot lr er ir groupNames refC cvC cvC
        (keysLike_refl lr er ir cvC) grp r hr
    have hempty2 : interKeys ((atom_groups refC lr er ir).get grp)
        ((atom_groups cv' lr er ir).get grp) = [] := by
      rw [interKeys_congr_cv _ (hlike grp), hempty]
    have hna : renderRms r = "NA" := by
      rw [hrval, processGroup_fst_none svdRot lr er ir grp _ cv' hempty2]
      rfl
    exact ⟨nAtomsOf ((atom_groups refC lr er ir).get grp),
      by rw [← hna]; exact report_row_mem svdRot refC cvC lr er ir grp r hr⟩

/-- Witness for C4: the `ec` group of the concrete run has no shared keys
yet the run produces all five rows and an `NA` row for `ec`. -/
theorem c4_empty_intersection_na_continues_witness :
    ((computeRmsdMain (fun _ => idMat3) wch
        ⟨[⟨" ", 5, "ALA", [⟨"CA", ⟨7, 8, 9⟩⟩]⟩]⟩ [(1, 10)] [] []).map Prod.fst
      = groupNames)
    ∧ (computeRmsdMain (fun _ => idMat3) wch
        ⟨[⟨" ", 5, "ALA", [⟨"CA", ⟨7, 8, 9⟩⟩]⟩]⟩ [(1, 10)] [] []).length = 5
    ∧ ∃ n, ("ec", n, "NA") ∈ computeRmsdMain (fun _ => idMat3) wch
        ⟨[⟨" ", 5, "ALA", [⟨"CA", ⟨7, 8, 9⟩⟩]⟩]⟩ [(1, 10)] [] [] :=
  c4_empty_intersection_na_continues (fun _ => idMat3) wch
    ⟨[⟨" ", 5, "ALA", [⟨"CA", ⟨7, 8, 9⟩⟩]⟩]⟩ [(1, 10)] [] [] "ec"
    (by decide) (by decide)
